import Mathlib

/-!
Shallow embedding of the NAT reconciliation engine of `minion/network/nat.go`
(repository Baisang/quilt), together with the parts of `stitch` it consumes.

Modelling conventions:
* Go strings are Lean `String`s, Go `int` is `Int`, Go slices are `List`s.
* The iptables handle (`*iptables.IPTables`) is modelled as a record of
  response oracles (`Adapter`); each invocation of the engine is modelled as
  a pure function returning the ordered trace of adapter calls it issues
  together with the `Option String` error it returns (`none` = nil error).
* Go map iteration order is unspecified, so the compiled rule set produced by
  `routingRules` is stated about as a `Finset`; `routingRulesList` fixes one
  enumeration order (input list order, first duplicate of an
  (address, port) key dropped like the Go map does) for trace-level
  definitions.
-/

namespace Quilt

/-- `stitch.PublicInternetLabel` (stitch package): the magic label that allows
connections to or from the public network. -/
def PublicInternetLabel : String := "public"

/-- The fields of `db.Container` read by the NAT engine: the container's
assigned IP address and its logical labels. -/
structure Container where
  IP : String
  Labels : List String
deriving DecidableEq

/-- `stitch.Connection` / `db.Connection`: a permission edge from label `From`
to label `To` for the inclusive port range `[MinPort, MaxPort]`. -/
structure Connection where
  From : String
  To : String
  MinPort : Int
  MaxPort : Int
deriving DecidableEq

/-- The two protocols iterated by `routingRules` (`protocols := []string{"tcp", "udp"}`). -/
def protocols : List String := ["tcp", "udp"]

/-- The rendered DNAT rule of `routingRules`:
`fmt.Sprintf("-i %[1]s -p %[2]s -m %[2]s --dport %[3]d -j DNAT --to-destination %[4]s:%[3]d", publicInterface, protocol, port, ip)`. -/
def dnatRule (publicInterface protocol : String) (port : Int) (ip : String) : String :=
  "-i " ++ publicInterface ++ " -p " ++ protocol ++ " -m " ++ protocol ++
    " --dport " ++ toString port ++ " -j DNAT --to-destination " ++
    ip ++ ":" ++ toString port

/-- The (address, port) pairs inserted into the `portsFromWeb` map by the
nested loops of `routingRules`, in loop order (containers outer, connections
inner, labels innermost), duplicates not yet collapsed. -/
def portPairsRaw (containers : List Container) (connections : List Connection) :
    List (String × Int) :=
  containers.flatMap fun dbc =>
    connections.flatMap fun conn =>
      if conn.From = PublicInternetLabel then
        dbc.Labels.flatMap fun l =>
          if conn.To = l then [(dbc.IP, conn.MinPort)] else []
      else []

/-- The keys of the `portsFromWeb` map of `routingRules`: the raw pairs with
duplicates collapsed (the Go map keeps one entry per (address, port) key). -/
def portPairs (containers : List Container) (connections : List Connection) :
    List (String × Int) :=
  (portPairsRaw containers connections).dedup

/-- The rule list emitted by `routingRules`, one enumeration order fixed
(the Go map's iteration order is unspecified); for each (address, port) key
the `protocols` loop emits a tcp and a udp rule. -/
def routingRulesList (publicInterface : String) (containers : List Container)
    (connections : List Connection) : List String :=
  (portPairs containers connections).flatMap fun pr =>
    protocols.map fun protocol => dnatRule publicInterface protocol pr.2 pr.1

/-- The compiled target rule set of `routingRules`, as the set of emitted
rule strings. -/
def routingRules (publicInterface : String) (containers : List Container)
    (connections : List Connection) : Finset String :=
  (routingRulesList publicInterface containers connections).toFinset

/-- The container filter of `runNat`:
`conn.SelectFromContainer(func(c db.Container) bool { return c.IP != "" })`. -/
def selectContainers (containers : List Container) : List Container :=
  containers.filter fun c => c.IP != ""

/-- The PREROUTING target set computed by a tick of `runNat`/`updateNAT`:
`routingRules` applied to the containers selected by `runNat`. -/
def natTargetRules (publicInterface : String) (containers : List Container)
    (connections : List Connection) : Finset String :=
  routingRules publicInterface (selectContainers containers) connections

theorem mem_portPairsRaw (containers : List Container)
    (connections : List Connection) (pr : String × Int) :
    pr ∈ portPairsRaw containers connections ↔
      ∃ dbc, dbc ∈ containers ∧ ∃ conn, conn ∈ connections ∧
        conn.From = PublicInternetLabel ∧ conn.To ∈ dbc.Labels ∧
        pr = (dbc.IP, conn.MinPort) := by
  unfold portPairsRaw
  simp only [List.mem_flatMap]
  constructor
  · rintro ⟨dbc, hdbc, conn, hconn, hpr⟩
    refine ⟨dbc, hdbc, conn, hconn, ?_⟩
    by_cases hFrom : conn.From = PublicInternetLabel
    · simp only [hFrom, if_true, List.mem_flatMap] at hpr
      rcases hpr with ⟨l, hl, hpr⟩
      by_cases hTo : conn.To = l
      · simp only [hTo, if_true, List.mem_singleton] at hpr
        exact ⟨hFrom, hTo ▸ hl, hpr⟩
      · simp [hTo] at hpr
    · simp [hFrom] at hpr
  · rintro ⟨dbc, hdbc, conn, hconn, hFrom, hTo, hpr⟩
    refine ⟨dbc, hdbc, conn, hconn, ?_⟩
    simp only [hFrom, if_true, List.mem_flatMap]
    exact ⟨conn.To, hTo, by simp [hpr]⟩

theorem mem_portPairs (containers : List Container)
    (connections : List Connection) (pr : String × Int) :
    pr ∈ portPairs containers connections ↔
      ∃ dbc, dbc ∈ containers ∧ ∃ conn, conn ∈ connections ∧
        conn.From = PublicInternetLabel ∧ conn.To ∈ dbc.Labels ∧
        pr = (dbc.IP, conn.MinPort) := by
  rw [portPairs, List.mem_dedup]
  exact mem_portPairsRaw containers connections pr

theorem mem_routingRules (publicInterface : String) (containers : List Container)
    (connections : List Connection) (r : String) :
    r ∈ routingRules publicInterface containers connections ↔
      ∃ pr, pr ∈ portPairs containers connections ∧
        (r = dnatRule publicInterface "tcp" pr.2 pr.1 ∨
         r = dnatRule publicInterface "udp" pr.2 pr.1) := by
  unfold routingRules routingRulesList protocols
  simp only [List.mem_toFinset, List.mem_flatMap, List.mem_map]
  constructor
  · rintro ⟨pr, hpr, proto, hproto, hr⟩
    simp only [List.mem_cons, List.not_mem_nil, or_false] at hproto
    rcases hproto with h | h
    · exact ⟨pr, hpr, Or.inl (by rw [← hr, h])⟩
    · exact ⟨pr, hpr, Or.inr (by rw [← hr, h])⟩
  · rintro ⟨pr, hpr, hr | hr⟩
    · exact ⟨pr, hpr, "tcp", by simp, hr.symm⟩
    · exact ⟨pr, hpr, "udp", by simp, hr.symm⟩

theorem portPairs_perm (cs₁ cs₂ : List Container) (conns₁ conns₂ : List Connection)
    (hc : List.Perm cs₁ cs₂) (hn : List.Perm conns₁ conns₂) (pr : String × Int) :
    pr ∈ portPairs cs₁ conns₁ ↔ pr ∈ portPairs cs₂ conns₂ := by
  rw [mem_portPairs, mem_portPairs]
  exact exists_congr fun dbc =>
    and_congr hc.mem_iff (exists_congr fun conn => and_congr hn.mem_iff Iff.rfl)

/-- C3: with one connection public→web on port 80 and one container labelled
web at 10.0.0.5, `routingRules` compiles exactly the two DNAT rules (tcp and
udp) with the exact rendered strings; in general a rule is in the compiled set
iff it is the tcp or udp rendering of some collected (address, port) pair. -/
theorem routingRules_scenarioA :
    (∀ (publicInterface : String) (containers : List Container)
        (connections : List Connection) (r : String),
      r ∈ routingRules publicInterface containers connections ↔
        ∃ pr, pr ∈ portPairs containers connections ∧
          (r = dnatRule publicInterface "tcp" pr.2 pr.1 ∨
           r = dnatRule publicInterface "udp" pr.2 pr.1)) ∧
    routingRules "eth0" [⟨"10.0.0.5", ["web"]⟩] [⟨"public", "web", 80, 80⟩] =
      {"-i eth0 -p tcp -m tcp --dport 80 -j DNAT --to-destination 10.0.0.5:80",
       "-i eth0 -p udp -m udp --dport 80 -j DNAT --to-destination 10.0.0.5:80"} ∧
    (routingRules "eth0" [⟨"10.0.0.5", ["web"]⟩] [⟨"public", "web", 80, 80⟩]).card = 2 :=
  ⟨mem_routingRules, by decide, by decide⟩

/-- C4: the container filter of `runNat` keeps only containers with a
non-empty address, so no (address, port) pair of the compiled PREROUTING
target mentions an empty address; with Scenario A's inputs but an empty
container address the compiled target set is empty. -/
theorem natTarget_excludes_empty_address (containers : List Container)
    (connections : List Connection) (ip : String) (p : Int)
    (h : (ip, p) ∈ portPairs (selectContainers containers) connections) :
    ip ≠ "" ∧
      natTargetRules "eth0" [⟨"", ["web"]⟩] [⟨"public", "web", 80, 80⟩] = ∅ := by
  refine ⟨?_, by decide⟩
  rcases (mem_portPairs _ _ _).mp h with ⟨dbc, hdbc, conn, hconn, hFrom, hTo, hpr⟩
  have hne : dbc.IP ≠ "" := by
    have hfil := List.of_mem_filter hdbc
    simpa [bne_iff_ne] using hfil
  have hip : ip = dbc.IP := congrArg Prod.fst hpr
  exact hip ▸ hne

theorem natTarget_excludes_empty_address_w :
    ("10.0.0.5", (80 : Int)) ∈
        portPairs (selectContainers [⟨"10.0.0.5", ["web"]⟩])
          [⟨"public", "web", 80, 80⟩] ∧
      ("10.0.0.5" ≠ "" ∧
        natTargetRules "eth0" [⟨"", ["web"]⟩] [⟨"public", "web", 80, 80⟩] = ∅) :=
  ⟨by decide,
    natTarget_excludes_empty_address [⟨"10.0.0.5", ["web"]⟩]
      [⟨"public", "web", 80, 80⟩] "10.0.0.5" 80 (by decide)⟩

/-- C5: every collected port is the `MinPort` of some public-source
connection; `MaxPort` never influences the compiled set (replacing every
connection's MaxPort by its MinPort changes nothing); and for a single ranged
connection no port strictly inside (MinPort, MaxPort] is ever collected. -/
theorem routingRules_minPort_only (containers : List Container)
    (connections : List Connection) :
    (∀ ip p, (ip, p) ∈ portPairs containers connections →
       ∃ conn, conn ∈ connections ∧ conn.From = PublicInternetLabel ∧
         conn.MinPort = p) ∧
    (∀ publicInterface, routingRules publicInterface containers connections =
       routingRules publicInterface containers
         (connections.map fun c => ⟨c.From, c.To, c.MinPort, c.MinPort⟩)) ∧
    (∀ (conn : Connection) (q : Int), conn.MinPort < q → q ≤ conn.MaxPort →
       ∀ ip, (ip, q) ∉ portPairs containers [conn]) := by
  have hmem : ∀ ip p, (ip, p) ∈ portPairs containers connections →
      ∃ conn, conn ∈ connections ∧ conn.From = PublicInternetLabel ∧
        conn.MinPort = p := by
    intro ip p h
    rcases (mem_portPairs _ _ _).mp h with ⟨dbc, _, conn, hconn, hFrom, _, hpr⟩
    exact ⟨conn, hconn, hFrom, (congrArg Prod.snd hpr).symm⟩
  refine ⟨hmem, ?_, ?_⟩
  · intro publicInterface
    apply Finset.ext
    intro r
    rw [mem_routingRules, mem_routingRules]
    refine exists_congr fun pr => and_congr ?_ Iff.rfl
    rw [mem_portPairs, mem_portPairs]
    refine exists_congr fun dbc => and_congr Iff.rfl ?_
    constructor
    · rintro ⟨conn, hconn, hFrom, hTo, hpr⟩
      exact ⟨⟨conn.From, conn.To, conn.MinPort, conn.MinPort⟩,
        List.mem_map_of_mem _ hconn, hFrom, hTo, hpr⟩
    · rintro ⟨conn, hconn, hFrom, hTo, hpr⟩
      rcases List.mem_map.mp hconn with ⟨c, hc, hcc⟩
      cases hcc
      exact ⟨c, hc, hFrom, hTo, hpr⟩
  · intro conn q hlt _ ip hmem'
    rcases (mem_portPairs _ _ _).mp hmem' with ⟨_, _, conn', hconn', _, _, hpr⟩
    rcases List.mem_singleton.mp hconn'
    have hq : conn.MinPort = q := (congrArg Prod.snd hpr).symm
    omega

theorem routingRules_minPort_only_w :
    (Connection.mk "public" "web" 80 85).MinPort < 82 ∧ (82 : Int) ≤ 85 ∧
      ("10.0.0.5", (82 : Int)) ∉
        portPairs [⟨"10.0.0.5", ["web"]⟩] [⟨"public", "web", 80, 85⟩] :=
  ⟨by decide, by decide,
    (routingRules_minPort_only [⟨"10.0.0.5", ["web"]⟩]
        [⟨"public", "web", 80, 85⟩]).2.2
      ⟨"public", "web", 80, 85⟩ 82 (by decide) (by decide) "10.0.0.5"⟩

/-- C9: permuting the container list or the connection list leaves the
compiled target rule set unchanged. -/
theorem routingRules_perm_invariant (publicInterface : String)
    (cs₁ cs₂ : List Container) (conns₁ conns₂ : List Connection)
    (hc : List.Perm cs₁ cs₂) (hn : List.Perm conns₁ conns₂) :
    routingRules publicInterface cs₁ conns₁ =
      routingRules publicInterface cs₂ conns₂ := by
  apply Finset.ext
  intro r
  rw [mem_routingRules, mem_routingRules]
  exact exists_congr fun pr => and_congr (portPairs_perm _ _ _ _ hc hn pr) Iff.rfl

theorem routingRules_perm_invariant_w :
    List.Perm [Container.mk "10.0.0.5" ["web"], Container.mk "10.0.0.9" ["db"]]
        [Container.mk "10.0.0.9" ["db"], Container.mk "10.0.0.5" ["web"]] ∧
      List.Perm [Connection.mk "public" "web" 80 80, Connection.mk "public" "db" 53 53]
        [Connection.mk "public" "db" 53 53, Connection.mk "public" "web" 80 80] ∧
      routingRules "eth0"
          [Container.mk "10.0.0.5" ["web"], Container.mk "10.0.0.9" ["db"]]
          [Connection.mk "public" "web" 80 80, Connection.mk "public" "db" 53 53] =
        routingRules "eth0"
          [Container.mk "10.0.0.9" ["db"], Container.mk "10.0.0.5" ["web"]]
          [Connection.mk "public" "db" 53 53, Connection.mk "public" "web" 80 80] :=
  ⟨List.Perm.swap _ _ _, List.Perm.swap _ _ _,
    routingRules_perm_invariant "eth0" _ _ _ _ (List.Perm.swap _ _ _)
      (List.Perm.swap _ _ _)⟩

/-- `strings.Split(s, " ")` on characters: split around every space, empty
fields kept (structurally recursive so concrete inputs evaluate in the
kernel). -/
def splitSpaceAux : List Char → String → List String
  | [], acc => [acc]
  | c :: cs, acc =>
    if c = ' ' then acc :: splitSpaceAux cs "" else splitSpaceAux cs (acc.push c)

/-- `strings.Split(s, " ")`. -/
def splitSpace (s : String) : List String :=
  splitSpaceAux s.data ""

/-- Rejoin fields with single spaces (the inverse step used by
`strings.SplitN`'s unsplit remainder). -/
def joinSpace : List String → String
  | [] => ""
  | [a] => a
  | a :: rest => a ++ " " ++ joinSpace rest

/-- `strings.SplitN(s, " ", 3)`: at most three substrings, the third being the
unsplit remainder. -/
def splitN3 (s : String) : List String :=
  match splitSpace s with
  | a :: b :: c :: rest => [a, b, joinSpace (c :: rest)]
  | parts => parts

/-- `strings.HasPrefix(s, "-A")`. -/
def isAppendLine (s : String) : Bool :=
  match s.data with
  | '-' :: 'A' :: _ => true
  | _ => false

/-- The third field of a well-formed `-A` listing line (`rSplit[2]`). -/
def field3 (s : String) : String :=
  (splitN3 s).getD 2 ""

/-- The parsing loop of `getRules` (nat.go lines 105-118), applied to the raw
lines returned by the adapter's List call: lines without the `-A` marker are
skipped, a marked line that does not split into three fields is a hard
`malformed rule` error, and each well-formed marked line contributes its third
field. -/
def getRules : List String → Except String (List String)
  | [] => .ok []
  | r :: rest =>
    if isAppendLine r then
      if (splitN3 r).length = 3 then
        match getRules rest with
        | .error e => .error e
        | .ok rules => .ok (field3 r :: rules)
      else .error ("malformed rule: " ++ r)
    else getRules rest

/-- One call issued to the iptables adapter. -/
inductive Call where
  | append (table chain : String) (ruleSpec : List String)
  | appendUnique (table chain : String) (ruleSpec : List String)
  | delete (table chain : String) (ruleSpec : List String)
  | list (table chain : String)
deriving DecidableEq

def isDelete : Call → Bool
  | .delete _ _ _ => true
  | _ => false

def isAppend : Call → Bool
  | .append _ _ _ => true
  | _ => false

def isAppendUnique : Call → Bool
  | .appendUnique _ _ _ => true
  | _ => false

/-- The iptables handle, modelled as response oracles: for each mutation call
the error it returns (`none` = success), and for each List call the returned
lines or error. -/
structure Adapter where
  appendRes : String → String → List String → Option String
  appendUniqueRes : String → String → List String → Option String
  deleteRes : String → String → List String → Option String
  listRes : String → String → Except String (List String)

/-- The outcome of one mutation call, with the error wrapping the engine
applies at each call site (`"iptables delete: %s"` in `syncChain`'s delete
loop, `"iptables append: %s"` in its append loop and in `setDefaultRules`);
List calls are handled separately since they return data. -/
def callRes (ipt : Adapter) : Call → Option String
  | .append t c rs => (ipt.appendRes t c rs).map (fun e => "iptables append: " ++ e)
  | .appendUnique t c rs =>
      (ipt.appendUniqueRes t c rs).map (fun e => "iptables append: " ++ e)
  | .delete t c rs => (ipt.deleteRes t c rs).map (fun e => "iptables delete: " ++ e)
  | .list _ _ => none

/-- Issue a list of mutation calls in order, stopping at (and including in the
trace) the first call whose adapter response is an error: the shape shared by
`syncChain`'s two loops and `setDefaultRules`' loop. -/
def runCalls (ipt : Adapter) : List Call → List Call × Option String
  | [] => ([], none)
  | c :: rest =>
    match callRes ipt c with
    | some e => ([c], some e)
    | none => ((c :: (runCalls ipt rest).1), (runCalls ipt rest).2)

/-- Modelled from the spec: `join.HashJoin(join.StringSlice(curr),
join.StringSlice(target), nil, nil)` comes from the repository's `join`
package, which is not under `src/`; per the spec the diff is a
set-difference/equi-join on the full rule string, so the lonely left side is
the current rules absent from the target set. -/
def rulesToDel (curr target : List String) : List String :=
  curr.filter fun r => decide (r ∉ target)

/-- Modelled from the spec: the lonely right side of the same equi-join — the
target rules absent from the current set. -/
def rulesToAdd (curr target : List String) : List String :=
  target.filter fun r => decide (r ∉ curr)

/-- The mutation calls issued by `syncChain` after the diff: one Delete per
lonely current rule (rule split on spaces into its spec), then one Append per
lonely target rule. -/
def editCalls (table chain : String) (curr target : List String) : List Call :=
  (rulesToDel curr target).map (fun r => Call.delete table chain (splitSpace r)) ++
    (rulesToAdd curr target).map (fun r => Call.append table chain (splitSpace r))

/-- The apply phase of `syncChain` (its two loops) on an already-parsed
current rule list. -/
def syncScript (ipt : Adapter) (table chain : String) (curr target : List String) :
    List Call × Option String :=
  runCalls ipt (editCalls table chain curr target)

/-- `syncChain` (nat.go lines 73-97): list the chain, parse the listing with
`getRules` (errors wrapped as `"iptables get: %s"`), then delete the lonely
current rules and append the lonely target rules, aborting on the first
adapter error. -/
def syncChain (ipt : Adapter) (table chain : String) (target : List String) :
    List Call × Option String :=
  match ipt.listRes table chain with
  | .error e => ([Call.list table chain], some ("iptables get: " ++ e))
  | .ok raw =>
    match getRules raw with
    | .error e => ([Call.list table chain], some ("iptables get: " ++ e))
    | .ok curr =>
      let p := syncScript ipt table chain curr target
      (Call.list table chain :: p.1, p.2)

/-- The three baseline rules of `setDefaultRules`, in source order. -/
def defaultCalls (publicInterface : String) : List Call :=
  [Call.appendUnique "nat" "INPUT" ["-j", "ACCEPT"],
   Call.appendUnique "nat" "OUTPUT" ["-j", "ACCEPT"],
   Call.appendUnique "nat" "POSTROUTING"
     ["-s", "10.0.0.0/8", "-o", publicInterface, "-j", "MASQUERADE"]]

/-- `setDefaultRules` (nat.go lines 173-198): AppendUnique each baseline rule
in order, returning the first error wrapped as `"iptables append: %s"`. -/
def setDefaultRules (ipt : Adapter) (publicInterface : String) :
    List Call × Option String :=
  runCalls ipt (defaultCalls publicInterface)

/-- The fields of `netlink.Route` read by the resolver: the optional
destination network (`nil` = default route) and the outgoing link index. -/
structure Route where
  Dst : Option String
  LinkIndex : Int
deriving DecidableEq

/-- `getPublicInterfaceImpl` (nat.go lines 201-225) on an already-listed route
table: scan for the first route with a nil destination (breaking at the first
match), fail with `missing default route` if none, otherwise resolve the
route's link index to an interface name via `lbi` (modelling
`netlink.LinkByIndex` composed with `.Attrs().Name`), wrapping a lookup error
as `"default route missing interface: %s"`. -/
def getPublicInterfaceImpl (routes : List Route)
    (lbi : Int → Except String String) : Except String String :=
  match routes.find? (fun r => r.Dst.isNone) with
  | none => .error "missing default route"
  | some r =>
    match lbi r.LinkIndex with
    | .error e => .error ("default route missing interface: " ++ e)
    | .ok name => .ok name

/-- `updateNAT` (nat.go lines 57-71): resolve the public interface (aborting
with no adapter call on failure, error wrapped `"get public interface: %s"`),
install the default rules (aborting on their error), then sync the nat
PREROUTING chain against the compiled routing rules. -/
def updateNAT (ipt : Adapter) (routes : List Route)
    (lbi : Int → Except String String) (containers : List Container)
    (connections : List Connection) : List Call × Option String :=
  match getPublicInterfaceImpl routes lbi with
  | .error e => ([], some ("get public interface: " ++ e))
  | .ok publicInterface =>
    let sdr := setDefaultRules ipt publicInterface
    match sdr.2 with
    | some e => (sdr.1, some e)
    | none =>
      let p := syncChain ipt "nat" "PREROUTING"
        (routingRulesList publicInterface containers connections)
      (sdr.1 ++ p.1, p.2)

theorem runCalls_cases (ipt : Adapter) (calls : List Call) :
    (runCalls ipt calls = (calls, none) ∧ ∀ c ∈ calls, callRes ipt c = none) ∨
    (∃ pre c post e, calls = pre ++ c :: post ∧
      runCalls ipt calls = (pre ++ [c], some e) ∧ callRes ipt c = some e ∧
      ∀ c' ∈ pre, callRes ipt c' = none) := by
  induction calls with
  | nil => exact Or.inl ⟨rfl, by simp⟩
  | cons c rest ih =>
    cases hres : callRes ipt c with
    | some e =>
      refine Or.inr ⟨[], c, rest, e, rfl, ?_, hres, by simp⟩
      simp [runCalls, hres]
    | none =>
      rcases ih with ⟨hrun, hall⟩ | ⟨pre, c', post, e, heq, hrun, hres', hpre⟩
      · refine Or.inl ⟨?_, ?_⟩
        · simp [runCalls, hres, hrun]
        · intro x hx
          rcases List.mem_cons.mp hx with rfl | hx
          · exact hres
          · exact hall x hx
      · refine Or.inr ⟨c :: pre, c', post, e, by rw [heq]; rfl, ?_, hres', ?_⟩
        · simp [runCalls, hres, hrun]
        · intro x hx
          rcases List.mem_cons.mp hx with rfl | hx
          · exact hres
          · exact hpre x hx

theorem runCalls_ok (ipt : Adapter) (calls : List Call)
    (h : ∀ c ∈ calls, callRes ipt c = none) : runCalls ipt calls = (calls, none) := by
  rcases runCalls_cases ipt calls with ⟨hrun, _⟩ | ⟨pre, c, post, e, heq, _, hres, _⟩
  · exact hrun
  · exact absurd (h c (heq ▸ List.mem_append_right pre (List.mem_cons_self c post)))
      (by simp [hres])

theorem toFinset_rulesToDel (curr target : List String) :
    (rulesToDel curr target).toFinset = curr.toFinset \ target.toFinset := by
  ext r
  simp [rulesToDel, List.mem_filter]

theorem toFinset_rulesToAdd (curr target : List String) :
    (rulesToAdd curr target).toFinset = target.toFinset \ curr.toFinset := by
  ext r
  simp [rulesToAdd, List.mem_filter]

theorem append_split {α : Type} (u v d a : List α) (h : u ++ v = d ++ a) :
    ∃ du au, u = du ++ au ∧ (∀ x ∈ du, x ∈ d) ∧ (∀ x ∈ au, x ∈ a) := by
  rcases List.append_eq_append_iff.mp h with ⟨k, hk1, _⟩ | ⟨k, hk1, hk2⟩
  · exact ⟨u, [], by simp, fun x hx => hk1 ▸ List.mem_append_left _ hx, by simp⟩
  · exact ⟨d, k, hk1, fun x hx => hx, fun x hx => hk2 ▸ List.mem_append_left _ hx⟩

theorem isAppend_eq_false_of_isDelete (c : Call) (h : isDelete c = true) :
    isAppend c = false := by
  cases c <;> simp_all [isDelete, isAppend]

/-- C1: with a successfully listed and parsed current rule list and an
all-successful adapter, `syncChain` issues exactly one Delete per current rule
absent from the target set and one Append per target rule absent from the
current set, nothing for rules in both; the edit script size is the
cardinality of the symmetric difference, and an equal current and target list
yields an empty edit script. -/
theorem syncChain_minimal_diff (ipt : Adapter) (table chain : String)
    (raw curr target : List String)
    (hlist : ipt.listRes table chain = .ok raw)
    (hparse : getRules raw = .ok curr)
    (hok : ∀ c, callRes ipt c = none)
    (hc : curr.Nodup) (ht : target.Nodup) :
    syncChain ipt table chain target =
      (Call.list table chain :: editCalls table chain curr target, none) ∧
    (rulesToDel curr target).toFinset = curr.toFinset \ target.toFinset ∧
    (rulesToAdd curr target).toFinset = target.toFinset \ curr.toFinset ∧
    (∀ r, r ∈ curr → r ∈ target →
      r ∉ rulesToDel curr target ∧ r ∉ rulesToAdd curr target) ∧
    (rulesToDel curr target).length + (rulesToAdd curr target).length =
      (symmDiff curr.toFinset target.toFinset).card ∧
    (curr = target → editCalls table chain curr target = []) := by
  refine ⟨?_, toFinset_rulesToDel curr target, toFinset_rulesToAdd curr target,
    ?_, ?_, ?_⟩
  · simp only [syncChain, hlist, hparse, syncScript,
      runCalls_ok ipt (editCalls table chain curr target) (fun c _ => hok c)]
  · intro r hcur htar
    constructor <;> intro hmem
    · exact absurd htar (by simpa [rulesToDel] using (List.mem_filter.mp hmem).2)
    · exact absurd hcur (by simpa [rulesToAdd] using (List.mem_filter.mp hmem).2)
  · have hdel : (rulesToDel curr target).length =
        (curr.toFinset \ target.toFinset).card := by
      rw [← toFinset_rulesToDel curr target]
      exact (List.toFinset_card_of_nodup (hc.filter _)).symm
    have hadd : (rulesToAdd curr target).length =
        (target.toFinset \ curr.toFinset).card := by
      rw [← toFinset_rulesToAdd curr target]
      exact (List.toFinset_card_of_nodup (ht.filter _)).symm
    rw [hdel, hadd, symmDiff_def, Finset.sup_eq_union,
      Finset.card_union_of_disjoint disjoint_sdiff_sdiff]
  · intro heq
    subst heq
    have h1 : rulesToDel curr curr = [] :=
      List.filter_eq_nil_iff.mpr fun r hr => by simp [hr]
    have h2 : rulesToAdd curr curr = [] :=
      List.filter_eq_nil_iff.mpr fun r hr => by simp [hr]
    simp [editCalls, h1, h2]

/-- Witness adapter: every mutation succeeds, the PREROUTING listing holds one
rule line and one chain-declaration line. -/
def iptA : Adapter :=
  ⟨fun _ _ _ => none, fun _ _ _ => none, fun _ _ _ => none,
   fun _ _ => .ok ["-A PREROUTING -j X", "-N PREROUTING"]⟩

theorem syncChain_minimal_diff_w :
    syncChain iptA "nat" "PREROUTING" ["-j Y"] =
      (Call.list "nat" "PREROUTING" ::
        editCalls "nat" "PREROUTING" ["-j X"] ["-j Y"], none) :=
  (syncChain_minimal_diff iptA "nat" "PREROUTING"
    ["-A PREROUTING -j X", "-N PREROUTING"] ["-j X"] ["-j Y"] rfl rfl
    (fun c => by cases c <;> rfl) (by decide) (by decide)).1

/-- C2: with a successfully listed and parsed current rule list, the calls
issued by `syncChain` after its List call split into a delete block followed
by an append block; a nil result means the whole edit script ran with every
call succeeding, an error result means the trace is the successful prefix plus
the single failing call (nothing after it), and once a Delete has failed no
Append appears in the trace. -/
theorem syncChain_order_abort (ipt : Adapter) (table chain : String)
    (raw curr target : List String)
    (hlist : ipt.listRes table chain = .ok raw)
    (hparse : getRules raw = .ok curr) :
    syncChain ipt table chain target =
      (Call.list table chain :: (syncScript ipt table chain curr target).1,
        (syncScript ipt table chain curr target).2) ∧
    (∃ ds as, (syncScript ipt table chain curr target).1 = ds ++ as ∧
      (∀ c ∈ ds, isDelete c = true) ∧ (∀ c ∈ as, isAppend c = true)) ∧
    ((syncScript ipt table chain curr target).2 = none →
      (syncScript ipt table chain curr target).1 =
          editCalls table chain curr target ∧
        ∀ c ∈ (syncScript ipt table chain curr target).1, callRes ipt c = none) ∧
    (∀ e, (syncScript ipt table chain curr target).2 = some e →
      ∃ pre c post, editCalls table chain curr target = pre ++ c :: post ∧
        (syncScript ipt table chain curr target).1 = pre ++ [c] ∧
        callRes ipt c = some e ∧ ∀ c' ∈ pre, callRes ipt c' = none) ∧
    ((∃ c ∈ (syncScript ipt table chain curr target).1,
        isDelete c = true ∧ callRes ipt c ≠ none) →
      ∀ c ∈ (syncScript ipt table chain curr target).1, isAppend c = false) := by
  have hdels : ∀ c ∈ (rulesToDel curr target).map
      (fun r => Call.delete table chain (splitSpace r)), isDelete c = true := by
    intro c hcm
    rcases List.mem_map.mp hcm with ⟨r, _, rfl⟩
    rfl
  have happs : ∀ c ∈ (rulesToAdd curr target).map
      (fun r => Call.append table chain (splitSpace r)), isAppend c = true := by
    intro c hcm
    rcases List.mem_map.mp hcm with ⟨r, _, rfl⟩
    rfl
  refine ⟨by simp only [syncChain, hlist, hparse], ?_, ?_, ?_, ?_⟩
  · rcases runCalls_cases ipt (editCalls table chain curr target) with
      ⟨hrun, _⟩ | ⟨pre, c, post, e, heq, hrun, _, _⟩
    · refine ⟨(rulesToDel curr target).map
          (fun r => Call.delete table chain (splitSpace r)),
        (rulesToAdd curr target).map
          (fun r => Call.append table chain (splitSpace r)), ?_, hdels, happs⟩
      simp only [syncScript, hrun]
      simp only [editCalls]
    · have hsplit := append_split (pre ++ [c]) post _ _
        (by simpa [editCalls] using heq.symm)
      rcases hsplit with ⟨du, au, hu, hdu, hau⟩
      exact ⟨du, au, by simp only [syncScript, hrun, hu],
        fun x hx => hdels x (hdu x hx), fun x hx => happs x (hau x hx)⟩
  · intro hnone
    rcases runCalls_cases ipt (editCalls table chain curr target) with
      ⟨hrun, hall⟩ | ⟨pre, c, post, e, heq, hrun, _, _⟩
    · constructor
      · simp only [syncScript, hrun]
      · intro c hcm
        exact hall c (by simpa only [syncScript, hrun] using hcm)
    · simp only [syncScript, hrun] at hnone
      cases hnone
  · intro e hsome
    rcases runCalls_cases ipt (editCalls table chain curr target) with
      ⟨hrun, _⟩ | ⟨pre, c, post, e', heq, hrun, hres, hpre⟩
    · simp only [syncScript, hrun] at hsome
      cases hsome
    · simp only [syncScript, hrun] at hsome
      cases hsome
      exact ⟨pre, c, post, heq, by simp only [syncScript, hrun], hres, hpre⟩
  · rintro ⟨c0, hc0mem, hc0del, hc0fail⟩ c hcm
    rcases runCalls_cases ipt (editCalls table chain curr target) with
      ⟨hrun, hall⟩ | ⟨pre, cf, post, e, heq, hrun, hres, hpre⟩
    · exact absurd (hall c0 (by simpa only [syncScript, hrun] using hc0mem))
        hc0fail
    · simp only [syncScript, hrun] at hc0mem hcm
      have hc0 : c0 = cf := by
        rcases List.mem_append.mp hc0mem with h | h
        · exact absurd (hpre c0 h) hc0fail
        · simpa using h
      subst hc0
      have hsplit := append_split (pre ++ [c0]) post _ _
        (by simpa [editCalls] using heq.symm)
      rcases hsplit with ⟨du, au, hu, hdu, hau⟩
      rcases List.eq_nil_or_concat au with rfl | ⟨au', w, rfl⟩
      · rw [List.append_nil] at hu
        exact isAppend_eq_false_of_isDelete c (hdels c (hdu c (hu ▸ hcm)))
      · exfalso
        have hlast : some c0 = some w := by
          calc some c0 = (pre ++ [c0]).getLast? := (List.getLast?_concat pre).symm
            _ = (du ++ au'.concat w).getLast? := by rw [← hu]
            _ = ((du ++ au') ++ [w]).getLast? := by
                  rw [List.concat_eq_append, ← List.append_assoc]
            _ = some w := List.getLast?_concat _
        cases hlast
        have := happs c0 (hau c0 (by simp [List.concat_eq_append]))
        rw [isAppend_eq_false_of_isDelete c0 hc0del] at this
        cases this

/-- Witness adapter: the PREROUTING listing holds one rule line and every
Delete fails. -/
def iptB : Adapter :=
  ⟨fun _ _ _ => none, fun _ _ _ => none, fun _ _ _ => some "boom",
   fun _ _ => .ok ["-A PREROUTING -j X"]⟩

theorem syncChain_order_abort_w :
    syncChain iptB "nat" "PREROUTING" [] =
      (Call.list "nat" "PREROUTING" ::
          (syncScript iptB "nat" "PREROUTING" ["-j X"] []).1,
        (syncScript iptB "nat" "PREROUTING" ["-j X"] []).2) :=
  (syncChain_order_abort iptB "nat" "PREROUTING" ["-A PREROUTING -j X"]
    ["-j X"] [] rfl rfl).1

theorem getRules_skips_unmarked (raw : List String) :
    getRules raw = getRules (raw.filter isAppendLine) := by
  induction raw with
  | nil => rfl
  | cons r rest ih =>
    by_cases h : isAppendLine r = true
    · rw [List.filter_cons_of_pos h]
      by_cases hlen : (splitN3 r).length = 3
      · simp [getRules, h, hlen, ih]
      · simp [getRules, h, hlen]
    · rw [List.filter_cons_of_neg h]
      simp [getRules, h, ih]

theorem getRules_ok_of_wellformed (raw : List String)
    (h : ∀ s ∈ raw, isAppendLine s = true → (splitN3 s).length = 3) :
    getRules raw = .ok ((raw.filter isAppendLine).map field3) := by
  induction raw with
  | nil => rfl
  | cons r rest ih =>
    have hrest := ih fun s hs => h s (List.mem_cons_of_mem r hs)
    by_cases hr : isAppendLine r = true
    · rw [List.filter_cons_of_pos hr]
      simp [getRules, hr, h r (List.mem_cons_self r rest) hr, hrest]
    · rw [List.filter_cons_of_neg hr]
      simp [getRules, hr, hrest]

theorem getRules_error_of_malformed (pre : List String) :
    ∀ (l : String) (post : List String),
    (∀ s ∈ pre, isAppendLine s = true → (splitN3 s).length = 3) →
    isAppendLine l = true → (splitN3 l).length ≠ 3 →
    getRules (pre ++ l :: post) = .error ("malformed rule: " ++ l) := by
  induction pre with
  | nil =>
    intro l post _ hl hlen
    simp only [List.nil_append, getRules, hl, if_true, hlen, if_false]
  | cons s pre' ih =>
    intro l post hpre hl hlen
    have hrest := ih l post
      (fun x hx h => hpre x (List.mem_cons_of_mem s hx) h) hl hlen
    by_cases hs : isAppendLine s = true
    · simp [getRules, hs, hpre s (List.mem_cons_self s pre') hs,
        List.append_eq, hrest]
    · simp [getRules, hs, List.append_eq, hrest]

/-- C6: `getRules` ignores every listing line without the `-A` marker (the
parse only depends on the marked lines); when every marked line splits into
three fields it returns, in order, the third field (the rule-argument
remainder) of each marked line; and when a marked line does not split into
three fields it returns the `malformed rule` error for the first such line
rather than skipping it. -/
theorem getRules_parse (raw pre : List String) (l : String) (post : List String) :
    getRules raw = getRules (raw.filter isAppendLine) ∧
    ((∀ s ∈ raw, isAppendLine s = true → (splitN3 s).length = 3) →
      getRules raw = .ok ((raw.filter isAppendLine).map field3)) ∧
    (raw = pre ++ l :: post →
      (∀ s ∈ pre, isAppendLine s = true → (splitN3 s).length = 3) →
      isAppendLine l = true → (splitN3 l).length ≠ 3 →
      getRules raw = .error ("malformed rule: " ++ l)) := by
  refine ⟨getRules_skips_unmarked raw, getRules_ok_of_wellformed raw, ?_⟩
  intro heq hpre hl hlen
  rw [heq]
  exact getRules_error_of_malformed pre l post hpre hl hlen

theorem getRules_parse_w :
    isAppendLine "-A" = true ∧ (splitN3 "-A").length ≠ 3 ∧
      getRules ["-N PREROUTING", "-A PREROUTING -j X", "-A"] =
        .error ("malformed rule: " ++ "-A") :=
  ⟨by decide, by decide,
    (getRules_parse ["-N PREROUTING", "-A PREROUTING -j X", "-A"]
        ["-N PREROUTING", "-A PREROUTING -j X"] "-A" []).2.2 rfl
      (by decide) (by decide) (by decide)⟩

/-- C7: when no route has a nil destination, `updateNAT` fails with the
`missing default route` error (wrapped by its `get public interface: %s`
context) and the adapter trace is empty — no Append, AppendUnique, Delete or
List call is issued. -/
theorem updateNAT_missing_default_route (ipt : Adapter) (routes : List Route)
    (lbi : Int → Except String String) (containers : List Container)
    (connections : List Connection)
    (h : ∀ r ∈ routes, r.Dst ≠ none) :
    updateNAT ipt routes lbi containers connections =
      ([], some "get public interface: missing default route") := by
  have hfind : routes.find? (fun r => r.Dst.isNone) = none := by
    rw [List.find?_eq_none]
    intro r hr
    simp [Option.isNone_iff_eq_none, h r hr]
  simp only [updateNAT, getPublicInterfaceImpl, hfind]
  rfl

theorem updateNAT_missing_default_route_w :
    (∀ r ∈ [Route.mk (some "10.0.0.0/8") 1], r.Dst ≠ none) ∧
      updateNAT iptA [Route.mk (some "10.0.0.0/8") 1] (fun _ => .ok "eth0") [] [] =
        ([], some "get public interface: missing default route") :=
  ⟨by decide,
    updateNAT_missing_default_route iptA [Route.mk (some "10.0.0.0/8") 1]
      (fun _ => .ok "eth0") [] [] (by decide)⟩

/-- C8: `setDefaultRules` issues exactly the three AppendUnique baseline calls
in source order when all succeed, issues only AppendUnique calls (never a
Delete), returns the first AppendUnique error with the trace stopping at the
failing call, and a failing `setDefaultRules` makes `updateNAT` return that
error with no further call (no PREROUTING List/Delete/Append). -/
theorem setDefaultRules_spec (ipt : Adapter) (publicInterface : String)
    (routes : List Route) (lbi : Int → Except String String)
    (containers : List Container) (connections : List Connection) :
    defaultCalls publicInterface =
      [Call.appendUnique "nat" "INPUT" ["-j", "ACCEPT"],
       Call.appendUnique "nat" "OUTPUT" ["-j", "ACCEPT"],
       Call.appendUnique "nat" "POSTROUTING"
         ["-s", "10.0.0.0/8", "-o", publicInterface, "-j", "MASQUERADE"]] ∧
    ((∀ c ∈ defaultCalls publicInterface, callRes ipt c = none) →
      setDefaultRules ipt publicInterface = (defaultCalls publicInterface, none)) ∧
    (∀ c ∈ (setDefaultRules ipt publicInterface).1, isAppendUnique c = true) ∧
    (∀ e, (setDefaultRules ipt publicInterface).2 = some e →
      ∃ pre c post, defaultCalls publicInterface = pre ++ c :: post ∧
        (setDefaultRules ipt publicInterface).1 = pre ++ [c] ∧
        callRes ipt c = some e ∧ ∀ c' ∈ pre, callRes ipt c' = none) ∧
    (∀ e, getPublicInterfaceImpl routes lbi = .ok publicInterface →
      (setDefaultRules ipt publicInterface).2 = some e →
      updateNAT ipt routes lbi containers connections =
        ((setDefaultRules ipt publicInterface).1, some e)) := by
  have hdef : ∀ c ∈ defaultCalls publicInterface, isAppendUnique c = true := by
    intro c hcm
    rcases List.mem_cons.mp hcm with rfl | hcm
    · rfl
    rcases List.mem_cons.mp hcm with rfl | hcm
    · rfl
    rcases List.mem_cons.mp hcm with rfl | hcm
    · rfl
    cases hcm
  refine ⟨rfl, runCalls_ok ipt (defaultCalls publicInterface), ?_, ?_, ?_⟩
  · intro c hcm
    rcases runCalls_cases ipt (defaultCalls publicInterface) with
      ⟨hrun, _⟩ | ⟨pre, cf, post, e, heq, hrun, _, _⟩
    · rw [setDefaultRules, hrun] at hcm
      exact hdef c hcm
    · rw [setDefaultRules, hrun] at hcm
      rcases List.mem_append.mp hcm with hcm | hcm
      · exact hdef c (heq ▸ List.mem_append_left _ hcm)
      · have : c = cf := by simpa using hcm
        subst this
        exact hdef c (heq ▸ List.mem_append_right _ (List.mem_cons_self _ _))
  · intro e hsome
    rcases runCalls_cases ipt (defaultCalls publicInterface) with
      ⟨hrun, _⟩ | ⟨pre, cf, post, e', heq, hrun, hres, hpre⟩
    · rw [setDefaultRules, hrun] at hsome
      cases hsome
    · rw [setDefaultRules, hrun] at hsome
      cases hsome
      exact ⟨pre, cf, post, heq, by rw [setDefaultRules, hrun], hres, hpre⟩
  · intro e hgpi hsome
    simp only [updateNAT, hgpi, hsome]

/-- Witness adapter: AppendUnique on the OUTPUT chain is denied, everything
else succeeds. -/
def iptC : Adapter :=
  ⟨fun _ _ _ => none,
   fun _ chain _ => if chain = "OUTPUT" then some "denied" else none,
   fun _ _ _ => none, fun _ _ => .ok []⟩

/-- Witness link resolver: index `i` resolves to interface `eth<i>`. -/
def lbi0 : Int → Except String String := fun i => .ok ("eth" ++ toString i)

theorem setDefaultRules_spec_w :
    getPublicInterfaceImpl [Route.mk none 2] lbi0 = .ok "eth2" ∧
      (setDefaultRules iptC "eth2").2 = some "iptables append: denied" ∧
      updateNAT iptC [Route.mk none 2] lbi0 [] [] =
        ((setDefaultRules iptC "eth2").1, some "iptables append: denied") :=
  ⟨rfl, rfl,
    (setDefaultRules_spec iptC "eth2" [Route.mk none 2] lbi0 [] []).2.2.2.2
      "iptables append: denied" rfl rfl⟩

/-- The resolution of an already-found default route: look its link index up
and return the link's name (nat.go lines 219-224). -/
def resolveDefault (lbi : Int → Except String String) (r : Route) :
    Except String String :=
  match lbi r.LinkIndex with
  | .error e => .error ("default route missing interface: " ++ e)
  | .ok name => .ok name

/-- C10: with several nil-destination routes in the table,
`getPublicInterfaceImpl` resolves the first one in list order, and the routes
after it never influence the result. -/
theorem getPublicInterface_first_default (lbi : Int → Except String String)
    (routes₁ : List Route) (r : Route) (routes₂ routes₂' : List Route)
    (h₁ : ∀ x ∈ routes₁, x.Dst ≠ none) (h₂ : r.Dst = none) :
    getPublicInterfaceImpl (routes₁ ++ r :: routes₂) lbi = resolveDefault lbi r ∧
    getPublicInterfaceImpl (routes₁ ++ r :: routes₂) lbi =
      getPublicInterfaceImpl (routes₁ ++ r :: routes₂') lbi := by
  have hfind : ∀ tail : List Route,
      (routes₁ ++ r :: tail).find? (fun x => x.Dst.isNone) = some r := by
    intro tail
    rw [List.find?_append]
    have h1 : routes₁.find? (fun x => x.Dst.isNone) = none := by
      rw [List.find?_eq_none]
      intro x hx
      simp [Option.isNone_iff_eq_none, h₁ x hx]
    rw [h1]
    simp [List.find?_cons, h₂]
  constructor
  · simp only [getPublicInterfaceImpl, hfind routes₂, resolveDefault]
  · simp only [getPublicInterfaceImpl, hfind routes₂, hfind routes₂']

theorem getPublicInterface_first_default_w :
    (∀ x ∈ [Route.mk (some "10.0.0.0/8") 1], x.Dst ≠ none) ∧
      (Route.mk none 2).Dst = none ∧
      (getPublicInterfaceImpl
          [Route.mk (some "10.0.0.0/8") 1, Route.mk none 2, Route.mk none 3]
          lbi0 = resolveDefault lbi0 (Route.mk none 2) ∧
        getPublicInterfaceImpl
            [Route.mk (some "10.0.0.0/8") 1, Route.mk none 2, Route.mk none 3]
            lbi0 =
          getPublicInterfaceImpl
            [Route.mk (some "10.0.0.0/8") 1, Route.mk none 2] lbi0) :=
  ⟨by decide, rfl,
    getPublicInterface_first_default lbi0 [Route.mk (some "10.0.0.0/8") 1]
      (Route.mk none 2) [Route.mk none 3] [] (by decide) rfl⟩

end Quilt
